import Mathlib

/-!
Shallow embedding of `src/core/registry.ts` (class `Registry`, the keyed
priority-ordered store of the csc-wallet repository).

Modelling conventions:
- JavaScript runtime values that appear in the registry are modelled by
  `JsVal` (strings, integer numbers, booleans, `null`, `undefined`, arrays);
  JS truthiness is `truthy`.
- The `content` field (`Map<string, [sequence, value]>`) is modelled as an
  insertion-ordered association list with unique keys; `Map.prototype.set`
  on an existing key keeps its position, a fresh key is appended.  A stored
  sequence is `Option Int` because the code can store `undefined` there.
- `[...content].sort(cmp)` is an ES2019 stable sort whose comparator
  `el1[1][0] - el2[1][0]` evaluates to NaN (treated by the sort as 0, i.e.
  "equal") when either sequence is `undefined`; `jsStableSort` is a stable
  insertion sort with the strict comparator `cmpSeq _ _ < 0`.
- Exceptions are `Except RegError`; operations that mutate state before a
  possible throw return the mutated state next to the error.
- The `EventBus` base class delivers "UPDATE" listeners in registration
  order and the constructor registers the cache-invalidating listener
  first, so `trigger` first clears both caches and then appends a
  `Delivered` record holding the payload together with the cache fields as
  every later (external) subscriber observes them.
- The external `validate(value, schema)` of `@odoo/owl` is a parameter
  `validate : JsVal → JsVal → Except String Unit` (`Except.error` models a
  thrown validation error whose stringification is the payload).
-/

inductive JsVal where
  | str (s : String)
  | num (n : Int)
  | bool (b : Bool)
  | null
  | undef
  | arr (elems : List JsVal)
deriving BEq

/-- JS `v === undefined`. -/
def isUndef : JsVal → Bool
  | JsVal.undef => true
  | _ => false

/-- JavaScript truthiness of a `JsVal` (arrays are objects, hence truthy). -/
def truthy : JsVal → Bool
  | JsVal.str s => !(s == "")
  | JsVal.num n => !(n == 0)
  | JsVal.bool b => b
  | JsVal.null => false
  | JsVal.undef => false
  | JsVal.arr _ => true

/-- A stored sequence (`number | undefined`) rendered back as a `JsVal`. -/
def seqJs : Option Int → JsVal
  | some n => JsVal.num n
  | none => JsVal.undef

/-- JS `o || d` on a `number | undefined` operand (`0` and `undefined` are falsy). -/
def jsOrElse (o : Option Int) (d : Int) : Int :=
  match o with
  | some n => if n == 0 then d else n
  | none => d

/-- Truthiness of the `sequence` option (`number | undefined`). -/
def seqTruthy : Option Int → Bool
  | some n => !(n == 0)
  | none => false

/-- The `content` map: insertion-ordered list of key ↦ `[sequence, value]`. -/
abbrev Content := List (String × Option Int × JsVal)

/-- `content.has(key)`. -/
def contentHas (c : Content) (key : String) : Bool :=
  c.any (fun e => e.1 == key)

/-- `content.get(key)`. -/
def contentGet (c : Content) (key : String) : Option (Option Int × JsVal) :=
  (c.find? (fun e => e.1 == key)).map (fun e => e.2)

/-- `content.set(key, v)`: replace in place when present, append when fresh. -/
def contentSet (c : Content) (key : String) (v : Option Int × JsVal) : Content :=
  if contentHas c key then c.map (fun e => if e.1 == key then (key, v) else e)
  else c ++ [(key, v)]

/-- `content.delete(key)`. -/
def contentDelete (c : Content) (key : String) : Content :=
  c.filter (fun e => !(e.1 == key))

/-- The sort comparator `el1[1][0] - el2[1][0]`; NaN (either side
`undefined`) is treated by the sort as 0, i.e. "equal ranking". -/
def cmpSeq : Option Int → Option Int → Int
  | some a, some b => a - b
  | _, _ => 0

/-- Strict "must come before" derived from the comparator. -/
def entryLt (e1 e2 : String × Option Int × JsVal) : Bool :=
  decide (cmpSeq e1.2.1 e2.2.1 < 0)

/-- Insert `x` behind every element it does not strictly precede
(the stable position). -/
def insertBefore {α : Type} (lt : α → α → Bool) (x : α) : List α → List α
  | [] => [x]
  | y :: ys => if lt x y then x :: y :: ys else y :: insertBefore lt x ys

/-- Stable sort (ES2019 `Array.prototype.sort`) as left-to-right stable
insertion sort. -/
def jsStableSort {α : Type} (lt : α → α → Bool) (l : List α) : List α :=
  l.foldl (fun acc x => insertBefore lt x acc) []

/-- `[...content].sort((el1, el2) => el1[1][0] - el2[1][0])`. -/
def sortedContent (c : Content) : Content :=
  jsStableSort entryLt c

/-- The list computed by `getAll` on a cache miss. -/
def sortedValues (c : Content) : List JsVal :=
  (sortedContent c).map (fun e => e.2.2)

/-- The list computed by `getEntries` on a cache miss. -/
def sortedPairs (c : Content) : List (String × JsVal) :=
  (sortedContent c).map (fun e => (e.1, e.2.2))

/-- The errors the registry can throw. -/
inductive RegError where
  | duplicatedKey (msg : String)
  | keyNotFound (msg : String)
  | jsError (msg : String)

/-- The `{operation, key, value}` payload of an "UPDATE" event. -/
structure UpdatePayload where
  operation : String
  key : String
  value : JsVal

/-- An "UPDATE" notification as delivered to external subscribers, together
with the registry's two cache fields at delivery time (the registry's own
invalidation listener was registered first in the constructor, so it has
already run). -/
structure Delivered where
  payload : UpdatePayload
  elementsAtDelivery : Option (List JsVal)
  entriesAtDelivery : Option (List (String × JsVal))

/-- The fields of a `Registry`, parametric in the type of sub-registries. -/
structure RegStateF (σ : Type) where
  content : Content
  subRegistries : List (String × σ)
  elements : Option (List JsVal)
  entries : Option (List (String × JsVal))
  name : String
  validationSchema : JsVal
  log : List Delivered

/-- A `Registry` instance: its fields, with sub-registries again registries. -/
inductive RegState where
  | mk (core : RegStateF RegState)

/-- Field access for `RegState`. -/
def RegState.core : RegState → RegStateF RegState
  | RegState.mk c => c

@[simp] theorem RegState.core_mk (c : RegStateF RegState) :
    (RegState.mk c).core = c := rfl

/-- `new Registry(name)`: empty content and sub-registries, both caches
`null`, `validationSchema = null`, and the invalidation listener installed
(modelled inside `trigger`). -/
def freshRegistry (name : String) : RegState :=
  RegState.mk
    { content := []
      subRegistries := []
      elements := none
      entries := none
      name := name
      validationSchema := JsVal.null
      log := [] }

/-- The constructor-registered "UPDATE" listener: clear both caches. -/
def invalidate (r : RegState) : RegState :=
  RegState.mk { r.core with elements := none, entries := none }

/-- `this.trigger("UPDATE", payload)`: listeners run in registration order,
so the invalidation listener runs first; afterwards the payload is
delivered to the external subscribers, which observe the cleared caches. -/
def trigger (r : RegState) (p : UpdatePayload) : RegState :=
  let r1 := invalidate r
  RegState.mk
    { r1.core with
      log := r1.core.log ++
        [{ payload := p
           elementsAtDelivery := r1.core.elements
           entriesAtDelivery := r1.core.entries }] }

namespace Registry

/-- `add(key, value, {force, sequence})`.  A call without an options object
uses the declared default `{force: false, sequence: 50}`; an options object
that omits a field destructures it to `undefined` (`force := false`,
`sequence := none`).  The body follows the source line by line, including
`sequence = sequence ? previousSequence || 50 : sequence`. -/
def add (r : RegState) (key : String) (value : JsVal)
    (force : Bool) (sequence : Option Int) : Except RegError Unit × RegState :=
  if !force && contentHas r.core.content key then
    (Except.error (RegError.duplicatedKey
      ("Cannot add \x27" ++ key ++ "\x27 in this registry: it already exists")), r)
  else
    let previousSequence : Option Int :=
      if force then (contentGet r.core.content key).bind (fun e => e.1) else none
    let sequence2 : Option Int :=
      if seqTruthy sequence then some (jsOrElse previousSequence 50) else sequence
    let r1 := RegState.mk
      { r.core with content := contentSet r.core.content key (sequence2, value) }
    (Except.ok (), trigger r1 { operation := "add", key := key, value := value })

/-- `get(key, defaultValue)`; an unspecified `defaultValue` is `undefined`,
and the code tests `defaultValue === undefined`. -/
def get (r : RegState) (key : String) (defaultValue : JsVal) : Except RegError JsVal :=
  if isUndef defaultValue && !(contentHas r.core.content key) then
    Except.error (RegError.keyNotFound ("Cannot find " ++ key ++ " in this registry!"))
  else
    Except.ok (match contentGet r.core.content key with
      | some info => info.2
      | none => defaultValue)

/-- `contains(key)`. -/
def contains (r : RegState) (key : String) : Bool :=
  contentHas r.core.content key

/-- `getAll()`: serve the cached `elements` when non-null (even an empty
array is truthy), else compute, cache and return the sorted values. -/
def getAll (r : RegState) : List JsVal × RegState :=
  match r.core.elements with
  | some es => (es, r)
  | none =>
    let es := sortedValues r.core.content
    (es, RegState.mk { r.core with elements := some es })

/-- `getEntries()`: cached `entries` when non-null, else compute and cache. -/
def getEntries (r : RegState) : List (String × JsVal) × RegState :=
  match r.core.entries with
  | some es => (es, r)
  | none =>
    let es := sortedPairs r.core.content
    (es, RegState.mk { r.core with entries := some es })

/-- `remove(key)`: read `content.get(key)` (the whole `[sequence, value]`
pair, `undefined` when absent), delete, and trigger "UPDATE" with that
pair as the payload value. -/
def remove (r : RegState) (key : String) : RegState :=
  let value : JsVal :=
    match contentGet r.core.content key with
    | some e => JsVal.arr [seqJs e.1, e.2]
    | none => JsVal.undef
  let r1 := RegState.mk { r.core with content := contentDelete r.core.content key }
  trigger r1 { operation := "delete", key := key, value := value }

/-- `category(subcategory)`: return the stored child when present (a
registry object is always truthy), else create `new Registry()` — with the
default name, not `subcategory` — store and return it.  The result pairs
the child with the parent's (possibly updated) state. -/
def category (r : RegState) (subcategory : String) : RegState × RegState :=
  match (r.core.subRegistries.find? (fun e => e.1 == subcategory)).map (fun e => e.2) with
  | some c => (c, r)
  | none =>
    let c := freshRegistry "root"
    (c, RegState.mk
      { r.core with subRegistries := r.core.subRegistries ++ [(subcategory, c)] })

end Registry

/-- The helper `validateSchema(name, key, value, schema)`: call the external
`validate` and wrap any thrown error. -/
def validateSchema (validate : JsVal → JsVal → Except String Unit)
    (name key : String) (value schema : JsVal) : Except RegError Unit :=
  match validate value schema with
  | Except.ok _ => Except.ok ()
  | Except.error e =>
    Except.error (RegError.jsError
      ("Validation error for key \"" ++ key ++ "\" in registry \"" ++ name ++
        "\": " ++ e))

/-- The `for (const [key, value] of this.getEntries())` loop of
`addValidation`: validate in order, stopping at the first failure. -/
def validateAll (validate : JsVal → JsVal → Except String Unit)
    (name : String) (schema : JsVal) : List (String × JsVal) → Except RegError Unit
  | [] => Except.ok ()
  | e :: rest =>
    match validateSchema validate name e.1 e.2 schema with
    | Except.error m => Except.error m
    | Except.ok _ => validateAll validate name schema rest

namespace Registry

/-- `addValidation(schema)`: throw when `this.validationSchema` is truthy;
else store the schema first, then validate every current entry (via
`getEntries`, which fills the entries cache).  The stored schema and the
filled cache survive a validation throw. -/
def addValidation (validate : JsVal → JsVal → Except String Unit)
    (r : RegState) (schema : JsVal) : Except RegError Unit × RegState :=
  if truthy r.core.validationSchema then
    (Except.error (RegError.jsError "Validation schema already set on this registry"), r)
  else
    let r1 := RegState.mk { r.core with validationSchema := schema }
    let pr := Registry.getEntries r1
    (validateAll validate r1.core.name schema pr.1, pr.2)

end Registry

/-- Cache consistency: each cache, when non-null, is the sorted projection
of the current content. -/
def CacheInv (r : RegState) : Prop :=
  (r.core.elements = none ∨ r.core.elements = some (sortedValues r.core.content)) ∧
  (r.core.entries = none ∨ r.core.entries = some (sortedPairs r.core.content))

/-- The integer sort key of a stored entry (0 for an `undefined` sequence;
only used under the hypothesis that every sequence is defined). -/
def seqKey (e : String × Option Int × JsVal) : Int :=
  e.2.1.getD 0

theorem isUndef_iff (v : JsVal) : isUndef v = true ↔ v = JsVal.undef := by
  cases v <;> simp [isUndef]

@[simp] theorem trigger_content (r : RegState) (p : UpdatePayload) :
    (trigger r p).core.content = r.core.content := rfl

@[simp] theorem trigger_elements (r : RegState) (p : UpdatePayload) :
    (trigger r p).core.elements = none := rfl

@[simp] theorem trigger_entries (r : RegState) (p : UpdatePayload) :
    (trigger r p).core.entries = none := rfl

@[simp] theorem trigger_log (r : RegState) (p : UpdatePayload) :
    (trigger r p).core.log =
      r.core.log ++ [{ payload := p, elementsAtDelivery := none, entriesAtDelivery := none }] := rfl

theorem contentHas_cons (e : String × Option Int × JsVal) (t : Content) (key : String) :
    contentHas (e :: t) key = ((e.1 == key) || contentHas t key) := rfl

theorem contentGet_cons_of_pos (e : String × Option Int × JsVal) (t : Content)
    (key : String) (he : (e.1 == key) = true) :
    contentGet (e :: t) key = some e.2 := by
  simp only [contentGet, List.find?_cons, he]
  rfl

theorem contentGet_cons_of_neg (e : String × Option Int × JsVal) (t : Content)
    (key : String) (he : (e.1 == key) = false) :
    contentGet (e :: t) key = contentGet t key := by
  simp only [contentGet, List.find?_cons, he]

theorem contentHas_eq_isSome (c : Content) (key : String) :
    contentHas c key = (contentGet c key).isSome := by
  induction c with
  | nil => rfl
  | cons e t ih =>
    by_cases he : (e.1 == key) = true
    · rw [contentHas_cons, contentGet_cons_of_pos e t key he, he]
      rfl
    · have he2 : (e.1 == key) = false := by simpa using he
      rw [contentHas_cons, contentGet_cons_of_neg e t key he2, he2]
      simpa using ih

theorem contentGet_eq_none (c : Content) (key : String)
    (h : contentHas c key = false) : contentGet c key = none := by
  rw [contentHas_eq_isSome] at h
  exact Option.not_isSome_iff_eq_none.mp (by simp [h])

theorem contentDelete_cons_of_pos (e : String × Option Int × JsVal) (t : Content)
    (key : String) (he : (e.1 == key) = true) :
    contentDelete (e :: t) key = contentDelete t key := by
  simp only [contentDelete, List.filter_cons, he, Bool.not_true, Bool.false_eq_true,
    if_false]

theorem contentDelete_cons_of_neg (e : String × Option Int × JsVal) (t : Content)
    (key : String) (he : (e.1 == key) = false) :
    contentDelete (e :: t) key = e :: contentDelete t key := by
  simp only [contentDelete, List.filter_cons, he, Bool.not_false, if_true]

theorem contentDelete_of_not_has (c : Content) (key : String)
    (h : contentHas c key = false) : contentDelete c key = c := by
  induction c with
  | nil => rfl
  | cons e t ih =>
    rw [contentHas_cons] at h
    have h1 : (e.1 == key) = false := by
      cases hb : (e.1 == key) <;> rw [hb] at h <;> simpa using h
    have h2 : contentHas t key = false := by
      cases hb : contentHas t key <;> rw [hb] at h <;> simpa using h
    rw [contentDelete_cons_of_neg e t key h1, ih h2]

theorem contentHas_delete_self (c : Content) (key : String) :
    contentHas (contentDelete c key) key = false := by
  induction c with
  | nil => rfl
  | cons e t ih =>
    by_cases he : (e.1 == key) = true
    · rw [contentDelete_cons_of_pos e t key he]
      exact ih
    · have he2 : (e.1 == key) = false := by simpa using he
      rw [contentDelete_cons_of_neg e t key he2, contentHas_cons, he2]
      simpa using ih

theorem contentGet_set_self (c : Content) (key : String) (v : Option Int × JsVal) :
    contentGet (contentSet c key v) key = some v := by
  by_cases h : contentHas c key = true
  · rw [contentSet, if_pos h]
    induction c with
    | nil => simp [contentHas] at h
    | cons e t ih =>
      by_cases he : (e.1 == key) = true
      · rw [List.map_cons, if_pos he]
        exact contentGet_cons_of_pos _ _ key (by simp)
      · have he2 : (e.1 == key) = false := by simpa using he
        have ht : contentHas t key = true := by
          rw [contentHas_cons, he2] at h
          simpa using h
        rw [List.map_cons, if_neg he, contentGet_cons_of_neg e _ key he2]
        exact ih ht
  · have h2 : contentHas c key = false := by simpa using h
    rw [contentSet, if_neg (by simp [h2])]
    induction c with
    | nil => exact contentGet_cons_of_pos _ _ key (by simp)
    | cons e t ih =>
      rw [contentHas_cons] at h2
      have hb1 : (e.1 == key) = false := by
        cases hb : (e.1 == key) <;> rw [hb] at h2 <;> simpa using h2
      have hb2 : contentHas t key = false := by
        cases hb : contentHas t key <;> rw [hb] at h2 <;> simpa using h2
      rw [List.cons_append, contentGet_cons_of_neg e _ key hb1]
      exact ih (by simp [hb2]) hb2

theorem contentGet_set_other (c : Content) (key : String) (v : Option Int × JsVal)
    (key2 : String) (h : key2 ≠ key) :
    contentGet (contentSet c key v) key2 = contentGet c key2 := by
  have hkk : (key == key2) = false := by
    simp only [beq_eq_false_iff_ne, ne_eq]
    exact fun he => h he.symm
  by_cases hc : contentHas c key = true
  · rw [contentSet, if_pos hc]
    clear hc
    induction c with
    | nil => rfl
    | cons e t ih =>
      by_cases he : (e.1 == key) = true
      · have he2 : (e.1 == key2) = false := by
          simp only [beq_eq_false_iff_ne, ne_eq]
          intro hx
          exact h ((beq_iff_eq.mp he) ▸ hx).symm
        rw [List.map_cons, if_pos he, contentGet_cons_of_neg _ _ key2 hkk,
          contentGet_cons_of_neg e t key2 he2]
        exact ih
      · have he2 : (e.1 == key) = false := by simpa using he
        rw [List.map_cons, if_neg he]
        by_cases hx : (e.1 == key2) = true
        · rw [contentGet_cons_of_pos e _ key2 hx, contentGet_cons_of_pos e t key2 hx]
        · have hx2 : (e.1 == key2) = false := by simpa using hx
          rw [contentGet_cons_of_neg e _ key2 hx2, contentGet_cons_of_neg e t key2 hx2]
          exact ih
  · have hc2 : contentHas c key = false := by simpa using hc
    rw [contentSet, if_neg (by simp [hc2])]
    clear hc hc2
    induction c with
    | nil =>
      rw [List.nil_append]
      exact contentGet_cons_of_neg _ _ key2 hkk
    | cons e t ih =>
      by_cases hx : (e.1 == key2) = true
      · rw [List.cons_append, contentGet_cons_of_pos e _ key2 hx,
          contentGet_cons_of_pos e t key2 hx]
      · have hx2 : (e.1 == key2) = false := by simpa using hx
        rw [List.cons_append, contentGet_cons_of_neg e _ key2 hx2,
          contentGet_cons_of_neg e t key2 hx2]
        exact ih

theorem find?_append_of_none {α : Type} (p : α → Bool) (l₁ l₂ : List α)
    (h : l₁.find? p = none) : (l₁ ++ l₂).find? p = l₂.find? p := by
  induction l₁ with
  | nil => rfl
  | cons a t ih =>
    by_cases ha : p a = true
    · simp [List.find?_cons, ha] at h
    · simp only [Bool.not_eq_true] at ha
      simp only [List.find?_cons, ha] at h
      simpa [List.find?_cons, ha] using ih h

theorem insertBefore_mem {α : Type} (lt : α → α → Bool) (x z : α) (l : List α)
    (h : z ∈ insertBefore lt x l) : z = x ∨ z ∈ l := by
  induction l with
  | nil =>
    simp only [insertBefore, List.mem_singleton] at h
    exact Or.inl h
  | cons y ys ih =>
    rw [insertBefore] at h
    by_cases hlt : lt x y = true
    · rw [if_pos hlt] at h
      rcases List.mem_cons.mp h with h1 | h1
      · exact Or.inl h1
      · exact Or.inr h1
    · rw [if_neg hlt] at h
      rcases List.mem_cons.mp h with h1 | h1
      · exact Or.inr (h1 ▸ List.mem_cons_self y ys)
      · rcases ih h1 with h2 | h2
        · exact Or.inl h2
        · exact Or.inr (List.mem_cons_of_mem y h2)

theorem insertBefore_perm {α : Type} (lt : α → α → Bool) (x : α) (l : List α) :
    (insertBefore lt x l).Perm (x :: l) := by
  induction l with
  | nil => exact List.Perm.refl _
  | cons y ys ih =>
    rw [insertBefore]
    by_cases hlt : lt x y = true
    · rw [if_pos hlt]
    · rw [if_neg hlt]
      exact (List.Perm.cons y ih).trans (List.Perm.swap x y ys)

theorem foldl_insertBefore_perm {α : Type} (lt : α → α → Bool) (l acc : List α) :
    (l.foldl (fun a x => insertBefore lt x a) acc).Perm (acc ++ l) := by
  induction l generalizing acc with
  | nil => simp
  | cons x t ih =>
    rw [List.foldl_cons]
    refine (ih (insertBefore lt x acc)).trans ?_
    refine (List.Perm.append_right t (insertBefore_perm lt x acc)).trans ?_
    rw [List.cons_append]
    exact List.perm_middle.symm

theorem jsStableSort_perm {α : Type} (lt : α → α → Bool) (l : List α) :
    (jsStableSort lt l).Perm l := by
  have h := foldl_insertBefore_perm lt l []
  rw [List.nil_append] at h
  exact h

theorem seqKey_le_of_entryLt (e1 e2 : String × Option Int × JsVal)
    (h1 : e1.2.1 ≠ none) (h2 : e2.2.1 ≠ none) (h : entryLt e1 e2 = true) :
    seqKey e1 ≤ seqKey e2 := by
  obtain ⟨a, ha⟩ := Option.ne_none_iff_exists'.mp h1
  obtain ⟨b, hb⟩ := Option.ne_none_iff_exists'.mp h2
  rw [entryLt, ha, hb] at h
  simp only [cmpSeq, decide_eq_true_eq] at h
  simp only [seqKey, ha, hb, Option.getD_some]
  omega

theorem seqKey_ge_of_not_entryLt (e1 e2 : String × Option Int × JsVal)
    (h1 : e1.2.1 ≠ none) (h2 : e2.2.1 ≠ none) (h : entryLt e1 e2 = false) :
    seqKey e2 ≤ seqKey e1 := by
  obtain ⟨a, ha⟩ := Option.ne_none_iff_exists'.mp h1
  obtain ⟨b, hb⟩ := Option.ne_none_iff_exists'.mp h2
  rw [entryLt, ha, hb] at h
  simp only [cmpSeq, decide_eq_false_iff_not] at h
  simp only [seqKey, ha, hb, Option.getD_some]
  omega

theorem insertBefore_pairwise (x : String × Option Int × JsVal)
    (l : List (String × Option Int × JsVal))
    (hx : x.2.1 ≠ none) (hl : ∀ e ∈ l, e.2.1 ≠ none)
    (hs : l.Pairwise (fun e1 e2 => seqKey e1 ≤ seqKey e2)) :
    (insertBefore entryLt x l).Pairwise (fun e1 e2 => seqKey e1 ≤ seqKey e2) := by
  induction l with
  | nil => simp [insertBefore]
  | cons y ys ih =>
    have hy : y.2.1 ≠ none := hl y (List.mem_cons_self y ys)
    rw [insertBefore]
    by_cases hlt : entryLt x y = true
    · rw [if_pos hlt]
      have hxy : seqKey x ≤ seqKey y := seqKey_le_of_entryLt x y hx hy hlt
      refine List.Pairwise.cons ?_ hs
      intro z hz
      rcases List.mem_cons.mp hz with h1 | h1
      · exact h1 ▸ hxy
      · exact le_trans hxy (List.rel_of_pairwise_cons hs h1)
    · have hlt' : entryLt x y = false := by simpa using hlt
      rw [if_neg hlt]
      have hyx : seqKey y ≤ seqKey x := seqKey_ge_of_not_entryLt x y hx hy hlt'
      refine List.Pairwise.cons ?_ ?_
      · intro z hz
        rcases insertBefore_mem entryLt x z ys hz with h1 | h1
        · exact h1 ▸ hyx
        · exact List.rel_of_pairwise_cons hs h1
      · exact ih (fun e he => hl e (List.mem_cons_of_mem y he)) (List.Pairwise.of_cons hs)

theorem foldl_insertBefore_pairwise :
    ∀ (l acc : List (String × Option Int × JsVal)),
      (∀ e ∈ l, e.2.1 ≠ none) → (∀ e ∈ acc, e.2.1 ≠ none) →
      acc.Pairwise (fun e1 e2 => seqKey e1 ≤ seqKey e2) →
      (l.foldl (fun a x => insertBefore entryLt x a) acc).Pairwise
        (fun e1 e2 => seqKey e1 ≤ seqKey e2) := by
  intro l
  induction l with
  | nil =>
    intro acc _ _ hs
    exact hs
  | cons x t ih =>
    intro acc hl hacc hs
    rw [List.foldl_cons]
    have hx : x.2.1 ≠ none := hl x (List.mem_cons_self x t)
    have hl2 : ∀ e ∈ t, e.2.1 ≠ none := fun e he => hl e (List.mem_cons_of_mem x he)
    have hacc2 : ∀ e ∈ insertBefore entryLt x acc, e.2.1 ≠ none := by
      intro e he
      rcases insertBefore_mem entryLt x e acc he with h1 | h1
      · exact h1 ▸ hx
      · exact hacc e h1
    exact ih (insertBefore entryLt x acc) hl2 hacc2
      (insertBefore_pairwise x acc hx hacc hs)

theorem sortedContent_pairwise (c : Content) (h : ∀ e ∈ c, e.2.1 ≠ none) :
    (sortedContent c).Pairwise (fun e1 e2 => seqKey e1 ≤ seqKey e2) := by
  exact foldl_insertBefore_pairwise c [] h (by simp) (by simp)

theorem sortedContent_perm (c : Content) : (sortedContent c).Perm c :=
  jsStableSort_perm entryLt c

theorem add_of_guard_true (r : RegState) (key : String) (value : JsVal)
    (force : Bool) (s : Option Int)
    (h : (!force && contentHas r.core.content key) = true) :
    Registry.add r key value force s =
      (Except.error (RegError.duplicatedKey
        ("Cannot add \x27" ++ key ++ "\x27 in this registry: it already exists")), r) := by
  unfold Registry.add
  rw [if_pos h]

/-- The sequence value `add` stores (the result of the source's
`sequence = sequence ? previousSequence || 50 : sequence` line). -/
def newSequence (r : RegState) (key : String) (force : Bool) (s : Option Int) : Option Int :=
  if seqTruthy s then
    some (jsOrElse (if force then (contentGet r.core.content key).bind (fun e => e.1) else none) 50)
  else s

theorem add_snd_of_guard_false (r : RegState) (key : String) (value : JsVal)
    (force : Bool) (s : Option Int)
    (h : (!force && contentHas r.core.content key) = false) :
    (Registry.add r key value force s).2 =
      trigger (RegState.mk { r.core with content := contentSet r.core.content key (newSequence r key force s, value) })
        { operation := "add", key := key, value := value } := by
  unfold Registry.add newSequence
  rw [if_neg (by simp [h])]

theorem add_fst_of_guard_false (r : RegState) (key : String) (value : JsVal)
    (force : Bool) (s : Option Int)
    (h : (!force && contentHas r.core.content key) = false) :
    (Registry.add r key value force s).1 = Except.ok () := by
  unfold Registry.add
  rw [if_neg (by simp [h])]

theorem add_content_of_not_has (r : RegState) (key : String) (value : JsVal)
    (force : Bool) (s : Option Int)
    (h : contentHas r.core.content key = false) :
    ∃ q, (Registry.add r key value force s).2.core.content =
      contentSet r.core.content key (q, value) := by
  rw [add_snd_of_guard_false r key value force s (by simp [h])]
  refine ⟨newSequence r key force s, ?_⟩
  rw [trigger_content]
  rfl

theorem add_contentGet_other (r : RegState) (key : String) (value : JsVal)
    (force : Bool) (s : Option Int) (key2 : String) (h2 : key2 ≠ key) :
    contentGet (Registry.add r key value force s).2.core.content key2 =
      contentGet r.core.content key2 := by
  by_cases hg : (!force && contentHas r.core.content key) = true
  · rw [add_of_guard_true r key value force s hg]
  · rw [add_snd_of_guard_false r key value force s (by simpa using hg), trigger_content]
    exact contentGet_set_other r.core.content key _ key2 h2

theorem add_contentHas_other (r : RegState) (key : String) (value : JsVal)
    (force : Bool) (s : Option Int) (key2 : String) (h2 : key2 ≠ key) :
    contentHas (Registry.add r key value force s).2.core.content key2 =
      contentHas r.core.content key2 := by
  rw [contentHas_eq_isSome, contentHas_eq_isSome,
    add_contentGet_other r key value force s key2 h2]

/-- A sequence of `add` calls `(key, value, force, sequence)`, each applied
to the registry state left by the previous one (a thrown `DuplicatedKey`
leaves the state unchanged). -/
def addSeq (r : RegState) : List (String × JsVal × Bool × Option Int) → RegState
  | [] => r
  | a :: rest => addSeq (Registry.add r a.1 a.2.1 a.2.2.1 a.2.2.2).2 rest

theorem addSeq_contentGet_not_mem :
    ∀ (l : List (String × JsVal × Bool × Option Int)) (r : RegState) (k : String),
      (∀ a ∈ l, a.1 ≠ k) →
      contentGet (addSeq r l).core.content k = contentGet r.core.content k := by
  intro l
  induction l with
  | nil =>
    intro r k _
    rfl
  | cons a t ih =>
    intro r k h
    rw [addSeq]
    rw [ih _ k (fun b hb => h b (List.mem_cons_of_mem a hb))]
    exact add_contentGet_other r a.1 a.2.1 a.2.2.1 a.2.2.2 k
      (fun he => h a (List.mem_cons_self a t) he.symm)

theorem addSeq_contentGet_of_mem :
    ∀ (l : List (String × JsVal × Bool × Option Int)) (r : RegState),
      (∀ a ∈ l, contentHas r.core.content a.1 = false) →
      (l.map (fun a => a.1)).Nodup →
      ∀ k v f s, (k, v, f, s) ∈ l →
      ∃ q, contentGet (addSeq r l).core.content k = some (q, v) := by
  intro l
  induction l with
  | nil =>
    intro r _ _ k v f s hmem
    exact absurd hmem (List.not_mem_nil _)
  | cons a t ih =>
    intro r hfresh hnd k v f s hmem
    rw [addSeq]
    have hnd2 : (t.map (fun a => a.1)).Nodup := (List.nodup_cons.mp (by simpa using hnd)).2
    have hhead : a.1 ∉ t.map (fun a => a.1) := (List.nodup_cons.mp (by simpa using hnd)).1
    have hfresh2 : ∀ b ∈ t, contentHas (Registry.add r a.1 a.2.1 a.2.2.1 a.2.2.2).2.core.content b.1 = false := by
      intro b hb
      have hbne : b.1 ≠ a.1 := by
        intro he
        exact hhead (he ▸ List.mem_map_of_mem (fun a => a.1) hb)
      rw [add_contentHas_other r a.1 a.2.1 a.2.2.1 a.2.2.2 b.1 hbne]
      exact hfresh b (List.mem_cons_of_mem a hb)
    rcases List.mem_cons.mp hmem with h1 | h1
    · have hk : k = a.1 := congrArg (fun x => x.1) h1
      have hv : v = a.2.1 := congrArg (fun x => x.2.1) h1
      obtain ⟨q, hq⟩ := add_content_of_not_has r a.1 a.2.1 a.2.2.1 a.2.2.2
        (hfresh a (List.mem_cons_self a t))
      refine ⟨q, ?_⟩
      rw [addSeq_contentGet_not_mem t _ k ?_, hq, hk, hv]
      · exact contentGet_set_self r.core.content a.1 (q, a.2.1)
      · intro b hb he
        exact hhead (hk ▸ he ▸ List.mem_map_of_mem (fun a => a.1) hb)
    · exact ih _ hfresh2 hnd2 k v f s h1

/-- A trivially succeeding stand-in for the external validator. -/
def trivialValidator : JsVal → JsVal → Except String Unit :=
  fun _ _ => Except.ok ()

/-- A registry whose content holds exactly ("x", priority 10, "A") and
("y", priority 5, "B"), both caches empty, no events yet. -/
def xyReg : RegState :=
  RegState.mk
    { content := [("x", (some 10, JsVal.str "A")), ("y", (some 5, JsVal.str "B"))]
      subRegistries := []
      elements := none
      entries := none
      name := "root"
      validationSchema := JsVal.null
      log := [] }

/-- The registry state after `add("a", v1, {sequence: 10})` and
`add("b", v2, {sequence: 5})` on an empty registry. -/
def c1State : RegState :=
  addSeq (freshRegistry "root")
    [("a", JsVal.str "v1", false, some 10), ("b", JsVal.str "v2", false, some 5)]

/-- Claim C1: the claim says an explicit priority is stored as supplied and
that add("a", v1, priority=10); add("b", v2, priority=5) makes getAll()
return [v2, v1].  Evaluating the code at exactly that input: the line
`sequence = sequence ? previousSequence || 50 : sequence` replaces any
truthy supplied sequence by `previousSequence || 50`, so both entries are
stored under sequence 50 and getAll() returns [v1, v2] (insertion order),
not [v2, v1]. -/
theorem c1_explicit_priority_ignored :
    contentGet c1State.core.content "a" = some (some 50, JsVal.str "v1") ∧
    contentGet c1State.core.content "b" = some (some 50, JsVal.str "v2") ∧
    (Registry.getAll c1State).1 = [JsVal.str "v1", JsVal.str "v2"] ∧
    (Registry.getAll c1State).1 ≠ [JsVal.str "v2", JsVal.str "v1"] := by
  refine ⟨rfl, rfl, rfl, fun h => ?_⟩
  have h2 : (some (JsVal.str "v1") : Option JsVal) = some (JsVal.str "v2") :=
    congrArg List.head? h
  injection h2 with h3
  injection h3 with h4
  exact absurd h4 (by decide)

/-- The registry state after `add("a", v1)` (default options, hence
sequence 50) on an empty registry. -/
def c2State : RegState :=
  (Registry.add (freshRegistry "root") "a" (JsVal.str "v1") false (some 50)).2

/-- Claim C2: the claim says a forced re-add without an explicit priority
preserves the prior priority.  Evaluating the code: after `add("a", v1)`
stored ("a" ↦ [50, v1]), the call `add("a", v2, {force: true})` destructures
`sequence` to `undefined`, which is falsy, so the source line
`sequence = sequence ? previousSequence || 50 : sequence` keeps `undefined`
and the entry is overwritten as ("a" ↦ [undefined, v2]) — the computed
`previousSequence` (50) is never used, so the prior priority is lost. -/
theorem c2_force_add_drops_prior_priority :
    contentGet c2State.core.content "a" = some (some 50, JsVal.str "v1") ∧
    (Registry.add c2State "a" (JsVal.str "v2") true none).1 = Except.ok () ∧
    contentGet (Registry.add c2State "a" (JsVal.str "v2") true none).2.core.content "a"
      = some (none, JsVal.str "v2") ∧
    (none : Option Int) ≠ some 50 := by
  refine ⟨rfl, rfl, rfl, fun h => Option.noConfusion h⟩

/-- Claim C7: `add` without force raises DuplicatedKey exactly when the
key is already present — on a present key it throws and leaves the
content, both caches, and the event log untouched (the source throws
before any mutation); on an absent key the call succeeds and no
DuplicatedKey error is possible. -/
theorem c7_duplicate_add_leaves_state_unchanged (r : RegState) (key : String)
    (value : JsVal) (s : Option Int) :
    (contentHas r.core.content key = true →
      Registry.add r key value false s =
        (Except.error (RegError.duplicatedKey
          ("Cannot add \x27" ++ key ++ "\x27 in this registry: it already exists")), r) ∧
      (Registry.add r key value false s).2.core.content = r.core.content ∧
      (Registry.add r key value false s).2.core.elements = r.core.elements ∧
      (Registry.add r key value false s).2.core.entries = r.core.entries ∧
      (Registry.add r key value false s).2.core.log = r.core.log) ∧
    (contentHas r.core.content key = false →
      (Registry.add r key value false s).1 = Except.ok ()) ∧
    ((∃ m, (Registry.add r key value false s).1 =
        Except.error (RegError.duplicatedKey m)) ↔
      contentHas r.core.content key = true) := by
  refine ⟨?_, ?_, ?_, ?_⟩
  · intro h
    have He := add_of_guard_true r key value false s (by simp [h])
    refine ⟨He, ?_, ?_, ?_, ?_⟩ <;> rw [He]
  · intro h
    exact add_fst_of_guard_false r key value false s (by simp [h])
  · rintro ⟨m, hm⟩
    cases hb : contentHas r.core.content key with
    | true => rfl
    | false =>
      rw [add_fst_of_guard_false r key value false s (by simp [hb])] at hm
      exact absurd hm (by simp)
  · intro h
    refine ⟨"Cannot add \x27" ++ key ++ "\x27 in this registry: it already exists", ?_⟩
    rw [add_of_guard_true r key value false s (by simp [h])]

/-- Witness for C7 at the concrete registry `xyReg`: the present key "x"
throws and leaves the state unchanged, the absent key "zz" succeeds. -/
theorem c7_duplicate_add_leaves_state_unchanged_witness :
    Registry.add xyReg "x" (JsVal.num 1) false (some 50) =
      (Except.error (RegError.duplicatedKey
        ("Cannot add \x27x\x27 in this registry: it already exists")), xyReg) ∧
    (Registry.add xyReg "zz" (JsVal.num 1) false (some 50)).1 = Except.ok () :=
  ⟨((c7_duplicate_add_leaves_state_unchanged xyReg "x" (JsVal.num 1) (some 50)).1 rfl).1,
   (c7_duplicate_add_leaves_state_unchanged xyReg "zz" (JsVal.num 1) (some 50)).2.1 rfl⟩

/-- Claim C5: `get(key, fallback)` throws KeyNotFound exactly when the key
is absent and the fallback is `undefined` (i.e. unspecified); a supplied
falsy fallback such as `null` or `false` is returned instead, because the
source tests `defaultValue === undefined`, not truthiness. -/
theorem c5_get_fallback (r : RegState) (key : String) (dv : JsVal) :
    (Registry.get r key dv =
        Except.error (RegError.keyNotFound ("Cannot find " ++ key ++ " in this registry!"))
      ↔ (dv = JsVal.undef ∧ contentHas r.core.content key = false)) ∧
    (contentHas r.core.content key = false → dv ≠ JsVal.undef →
      Registry.get r key dv = Except.ok dv) := by
  constructor
  · constructor
    · intro h
      by_cases hc : (isUndef dv && !(contentHas r.core.content key)) = true
      · simp only [Bool.and_eq_true] at hc
        obtain ⟨h1, h2⟩ := hc
        exact ⟨(isUndef_iff dv).mp h1, by simpa using h2⟩
      · unfold Registry.get at h
        rw [if_neg hc] at h
        exact absurd h (by simp)
    · rintro ⟨h1, h2⟩
      unfold Registry.get
      rw [if_pos (by simp [h1, isUndef, h2])]
  · intro h1 h2
    unfold Registry.get
    rw [if_neg (by simp [Bool.and_eq_true, isUndef_iff, h2]),
      contentGet_eq_none r.core.content key h1]

/-- Witness for C5 at `xyReg` and the absent key "zz": a supplied falsy
fallback `null` is returned without error, while no fallback throws. -/
theorem c5_get_fallback_witness :
    Registry.get xyReg "zz" JsVal.null = Except.ok JsVal.null ∧
    Registry.get xyReg "zz" JsVal.undef =
      Except.error (RegError.keyNotFound "Cannot find zz in this registry!") :=
  ⟨(c5_get_fallback xyReg "zz" JsVal.null).2 rfl (fun h => JsVal.noConfusion h),
   (c5_get_fallback xyReg "zz" JsVal.undef).1.mpr ⟨rfl, rfl⟩⟩

/-- Claim C4 counterexample: on `xyReg` (empty event log), `remove("z")`
with "z" absent does emit an UPDATE event, and `remove("x")` delivers the
stored `[sequence, value]` pair `[10, "A"]` as the payload value — not the
bare removed value "A". -/
theorem c4_remove_counterexample :
    (Registry.remove xyReg "z").core.log ≠ [] ∧
    (Registry.remove xyReg "x").core.log.map (fun d => d.payload.value) =
      [JsVal.arr [JsVal.num 10, JsVal.str "A"]] ∧
    JsVal.arr [JsVal.num 10, JsVal.str "A"] ≠ JsVal.str "A" := by
  refine ⟨fun h => ?_, rfl, fun h => JsVal.noConfusion h⟩
  exact Nat.succ_ne_zero 0 (congrArg List.length h)

/-- The body of `remove` written as one equation. -/
theorem remove_eq (r : RegState) (key : String) :
    Registry.remove r key =
      trigger (RegState.mk { r.core with content := contentDelete r.core.content key })
        { operation := "delete", key := key,
          value := match contentGet r.core.content key with
            | some e => JsVal.arr [seqJs e.1, e.2]
            | none => JsVal.undef } := rfl

/-- Claim C4 amended: `remove(key)` always emits an UPDATE event.  On an
absent key the store is unchanged and the payload value is `undefined`; on
a present key the entry is deleted and the payload value is the stored
`[sequence, value]` pair (not the bare value). -/
theorem c4_remove_amended (r : RegState) (key : String) :
    (contentHas r.core.content key = false →
      (Registry.remove r key).core.content = r.core.content ∧
      (Registry.remove r key).core.log = r.core.log ++
        [{ payload := { operation := "delete", key := key, value := JsVal.undef },
           elementsAtDelivery := none, entriesAtDelivery := none }]) ∧
    (∀ p v, contentGet r.core.content key = some (p, v) →
      (Registry.remove r key).core.content = contentDelete r.core.content key ∧
      contentHas (Registry.remove r key).core.content key = false ∧
      (Registry.remove r key).core.log = r.core.log ++
        [{ payload := { operation := "delete", key := key, value := JsVal.arr [seqJs p, v] },
           elementsAtDelivery := none, entriesAtDelivery := none }]) := by
  constructor
  · intro h
    rw [remove_eq, contentGet_eq_none r.core.content key h]
    constructor
    · rw [trigger_content]
      exact contentDelete_of_not_has r.core.content key h
    · rw [trigger_log]
      rfl
  · intro p v hp
    rw [remove_eq, hp]
    refine ⟨?_, ?_, ?_⟩
    · rw [trigger_content]
      rfl
    · rw [trigger_content]
      exact contentHas_delete_self r.core.content key
    · rw [trigger_log]
      rfl

/-- Witness for the amended C4 at `xyReg`: absent key "z" leaves content
unchanged yet logs a delete event; present key "x" logs the pair payload. -/
theorem c4_remove_amended_witness :
    (Registry.remove xyReg "z").core.content = xyReg.core.content ∧
    (Registry.remove xyReg "x").core.log = xyReg.core.log ++
      [{ payload := { operation := "delete", key := "x", value := JsVal.arr [JsVal.num 10, JsVal.str "A"] }, elementsAtDelivery := none, entriesAtDelivery := none }] :=
  ⟨((c4_remove_amended xyReg "z").1 rfl).1,
   ((c4_remove_amended xyReg "x").2 (some 10) (JsVal.str "A") rfl).2.2⟩

/-- Claim C3: for every registry state whose caches are consistent and
whose stored sequences are all defined, `getAll()` and `getEntries()`
return exactly the projections of the sorted content, and that sorted
content is ascending in the stored sequence and a permutation of the
content; in particular (see the witness) the store with entries
("x", 10, "A") and ("y", 5, "B") yields
getEntries() = [("y", "B"), ("x", "A")]. -/
theorem c3_getAll_getEntries_sorted (r : RegState) (hInv : CacheInv r)
    (hsome : ∀ e ∈ r.core.content, e.2.1 ≠ none) :
    (Registry.getAll r).1 = sortedValues r.core.content ∧
    (Registry.getEntries r).1 = sortedPairs r.core.content ∧
    (sortedContent r.core.content).Pairwise (fun e1 e2 => seqKey e1 ≤ seqKey e2) ∧
    (sortedContent r.core.content).Perm r.core.content := by
  refine ⟨?_, ?_, sortedContent_pairwise r.core.content hsome,
    sortedContent_perm r.core.content⟩
  · rcases hInv.1 with h | h
    · unfold Registry.getAll
      rw [h]
    · unfold Registry.getAll
      rw [h]
  · rcases hInv.2 with h | h
    · unfold Registry.getEntries
      rw [h]
    · unfold Registry.getEntries
      rw [h]

/-- Witness for C3 at the concrete store `xyReg`, including the claim's
concrete scenario getEntries() = [("y", "B"), ("x", "A")]. -/
theorem c3_getAll_getEntries_sorted_witness :
    CacheInv xyReg ∧
    (Registry.getEntries xyReg).1 = sortedPairs xyReg.core.content ∧
    (Registry.getEntries xyReg).1 = [("y", JsVal.str "B"), ("x", JsVal.str "A")] ∧
    (Registry.getAll xyReg).1 = [JsVal.str "B", JsVal.str "A"] := by
  have hInv : CacheInv xyReg := ⟨Or.inl rfl, Or.inl rfl⟩
  have hsome : ∀ e ∈ xyReg.core.content, e.2.1 ≠ none := by
    intro e he
    rcases List.mem_cons.mp he with h1 | h2
    · rw [h1]
      simp
    · rcases List.mem_cons.mp h2 with h3 | h4
      · rw [h3]
        simp
      · exact absurd h4 (List.not_mem_nil e)
  exact ⟨hInv, (c3_getAll_getEntries_sorted xyReg hInv hsome).2.1, rfl, rfl⟩

theorem validateAll_ok (validate : JsVal → JsVal → Except String Unit)
    (name : String) (schema : JsVal) :
    ∀ l : List (String × JsVal), (∀ e ∈ l, validate e.2 schema = Except.ok ()) →
      validateAll validate name schema l = Except.ok () := by
  intro l
  induction l with
  | nil =>
    intro _
    rfl
  | cons e t ih =>
    intro h
    unfold validateAll validateSchema
    rw [h e (List.mem_cons_self e t)]
    exact ih (fun b hb => h b (List.mem_cons_of_mem e hb))

theorem validateAll_first_error (validate : JsVal → JsVal → Except String Unit)
    (name : String) (schema : JsVal) :
    ∀ (pre : List (String × JsVal)) (k : String) (v : JsVal)
      (post : List (String × JsVal)) (em : String),
      (∀ e ∈ pre, validate e.2 schema = Except.ok ()) →
      validate v schema = Except.error em →
      validateAll validate name schema (pre ++ (k, v) :: post) =
        Except.error (RegError.jsError
          ("Validation error for key \"" ++ k ++ "\" in registry \"" ++ name ++
            "\": " ++ em)) := by
  intro pre
  induction pre with
  | nil =>
    intro k v post em _ hv
    rw [List.nil_append]
    unfold validateAll validateSchema
    rw [hv]
  | cons e t ih =>
    intro k v post em hpre hv
    rw [List.cons_append]
    unfold validateAll validateSchema
    rw [hpre e (List.mem_cons_self e t)]
    exact ih k v post em (fun b hb => hpre b (List.mem_cons_of_mem e hb)) hv

theorem addValidation_of_truthy (validate : JsVal → JsVal → Except String Unit)
    (r : RegState) (schema : JsVal) (h : truthy r.core.validationSchema = true) :
    Registry.addValidation validate r schema =
      (Except.error (RegError.jsError "Validation schema already set on this registry"), r) := by
  unfold Registry.addValidation
  rw [if_pos h]

theorem addValidation_of_falsy (validate : JsVal → JsVal → Except String Unit)
    (r : RegState) (schema : JsVal) (h : truthy r.core.validationSchema = false) :
    Registry.addValidation validate r schema =
      (validateAll validate
        (RegState.mk { r.core with validationSchema := schema }).core.name schema
        (Registry.getEntries (RegState.mk { r.core with validationSchema := schema })).1,
       (Registry.getEntries (RegState.mk { r.core with validationSchema := schema })).2) := by
  unfold Registry.addValidation
  rw [if_neg (by simp [h])]

theorem getEntries_fst_schema (r : RegState) (schema : JsVal) :
    (Registry.getEntries (RegState.mk { r.core with validationSchema := schema })).1 =
      (Registry.getEntries r).1 := by
  have hE : (RegState.mk { r.core with validationSchema := schema }).core.entries =
    r.core.entries := rfl
  have hC : (RegState.mk { r.core with validationSchema := schema }).core.content =
    r.core.content := rfl
  unfold Registry.getEntries
  rw [hE, hC]
  cases h : r.core.entries with
  | none => rfl
  | some es => rfl

theorem getEntries_snd_validationSchema (r : RegState) :
    (Registry.getEntries r).2.core.validationSchema = r.core.validationSchema := by
  unfold Registry.getEntries
  cases h : r.core.entries with
  | none => rfl
  | some es => rfl

/-- Claim C6 counterexample: with the falsy schema `false`, a first
`addValidation` call on an empty registry succeeds and stores the schema,
yet a second call also succeeds — the source guards with
`if (this.validationSchema)`, a truthiness test, so a falsy stored schema
never arms the already-set check and no SchemaAlreadySet error is raised. -/
theorem c6_addValidation_counterexample :
    (Registry.addValidation trivialValidator (freshRegistry "root") (JsVal.bool false)).1 =
      Except.ok () ∧
    (Registry.addValidation trivialValidator (freshRegistry "root")
      (JsVal.bool false)).2.core.validationSchema = JsVal.bool false ∧
    (Registry.addValidation trivialValidator
      (Registry.addValidation trivialValidator (freshRegistry "root") (JsVal.bool false)).2
      (JsVal.str "schema2")).1 = Except.ok () :=
  ⟨rfl, rfl, rfl⟩

/-- Claim C6 amended: when no truthy schema is set yet, `addValidation`
stores the schema and validates every current entry in sorted order,
returning ok when all pass and the wrapped error of the first violating
entry otherwise; a second call raises SchemaAlreadySet provided the schema
stored first is truthy (a falsy schema does not arm the check). -/
theorem c6_addValidation_amended (validate : JsVal → JsVal → Except String Unit)
    (r : RegState) (schema : JsVal) (h : truthy r.core.validationSchema = false) :
    (Registry.addValidation validate r schema).2.core.validationSchema = schema ∧
    (Registry.addValidation validate r schema).1 =
      validateAll validate r.core.name schema (Registry.getEntries r).1 ∧
    ((∀ e ∈ (Registry.getEntries r).1, validate e.2 schema = Except.ok ()) →
      (Registry.addValidation validate r schema).1 = Except.ok ()) ∧
    (∀ pre k v post em, (Registry.getEntries r).1 = pre ++ (k, v) :: post →
      (∀ e ∈ pre, validate e.2 schema = Except.ok ()) →
      validate v schema = Except.error em →
      (Registry.addValidation validate r schema).1 =
        Except.error (RegError.jsError
          ("Validation error for key \"" ++ k ++ "\" in registry \"" ++
            r.core.name ++ "\": " ++ em))) ∧
    (truthy schema = true → ∀ validate2 schema2,
      Registry.addValidation validate2 (Registry.addValidation validate r schema).2 schema2 =
        (Except.error (RegError.jsError "Validation schema already set on this registry"),
         (Registry.addValidation validate r schema).2)) := by
  have hAV := addValidation_of_falsy validate r schema h
  have hvs : (Registry.addValidation validate r schema).2.core.validationSchema = schema := by
    rw [hAV, getEntries_snd_validationSchema]
    rfl
  have hfst : (Registry.addValidation validate r schema).1 =
      validateAll validate r.core.name schema (Registry.getEntries r).1 := by
    rw [hAV, getEntries_fst_schema]
    rfl
  refine ⟨hvs, hfst, ?_, ?_, ?_⟩
  · intro hall
    rw [hfst]
    exact validateAll_ok validate r.core.name schema (Registry.getEntries r).1 hall
  · intro pre k v post em hsplit hpre hv
    rw [hfst, hsplit]
    exact validateAll_first_error validate r.core.name schema pre k v post em hpre hv
  · intro ht validate2 schema2
    exact addValidation_of_truthy validate2 _ schema2 (by rw [hvs]; exact ht)

/-- Witness for the amended C6 at `xyReg` with the truthy schema "S": the
first call succeeds (the trivial validator accepts everything), the second
raises SchemaAlreadySet. -/
theorem c6_addValidation_amended_witness :
    (Registry.addValidation trivialValidator xyReg (JsVal.str "S")).1 = Except.ok () ∧
    Registry.addValidation trivialValidator
      (Registry.addValidation trivialValidator xyReg (JsVal.str "S")).2 (JsVal.str "T") =
      (Except.error (RegError.jsError "Validation schema already set on this registry"),
       (Registry.addValidation trivialValidator xyReg (JsVal.str "S")).2) :=
  ⟨(c6_addValidation_amended trivialValidator xyReg (JsVal.str "S") rfl).2.2.1
      (fun _ _ => rfl),
   (c6_addValidation_amended trivialValidator xyReg (JsVal.str "S") rfl).2.2.2.2
      (by decide) trivialValidator (JsVal.str "T")⟩

/-- Claim C8: starting from an empty registry, after any sequence of `add`
calls with pairwise distinct keys, `get(k)` (no fallback) returns exactly
the value that was added under k. -/
theorem c8_add_then_get (l : List (String × JsVal × Bool × Option Int))
    (k : String) (v : JsVal) (f : Bool) (s : Option Int)
    (hnd : (l.map (fun a => a.1)).Nodup) (hmem : (k, v, f, s) ∈ l) :
    Registry.get (addSeq (freshRegistry "root") l) k JsVal.undef = Except.ok v := by
  obtain ⟨q, hq⟩ := addSeq_contentGet_of_mem l (freshRegistry "root")
    (fun a _ => rfl) hnd k v f s hmem
  have hhas : contentHas (addSeq (freshRegistry "root") l).core.content k = true := by
    rw [contentHas_eq_isSome, hq]
    rfl
  unfold Registry.get
  rw [if_neg (by simp [hhas, isUndef])]
  rw [hq]

/-- Witness for C8: two adds with distinct keys, then get of the second. -/
theorem c8_add_then_get_witness :
    Registry.get (addSeq (freshRegistry "root")
      [("a", JsVal.num 1, false, some 10), ("b", JsVal.num 2, false, some 5)])
      "b" JsVal.undef = Except.ok (JsVal.num 2) :=
  c8_add_then_get [("a", JsVal.num 1, false, some 10), ("b", JsVal.num 2, false, some 5)]
    "b" (JsVal.num 2) false (some 5) (by decide)
    (List.mem_cons_of_mem _ (List.mem_cons_self _ _))

/-- Claim C9: cache consistency is preserved by every operation, and every
mutation clears both caches synchronously — the post-state caches are null
and the UPDATE notification is delivered to external subscribers with both
caches already null (the constructor-registered invalidation listener runs
first).  `get` and `contains` do not touch the state at all (their types
return no state). -/
theorem c9_cache_invariant (r : RegState) (hInv : CacheInv r) :
    (∀ key value force s,
      CacheInv (Registry.add r key value force s).2 ∧
      ((Registry.add r key value force s).1 = Except.ok () →
        (Registry.add r key value force s).2.core.elements = none ∧
        (Registry.add r key value force s).2.core.entries = none ∧
        ∃ d, (Registry.add r key value force s).2.core.log = r.core.log ++ [d] ∧
          d.elementsAtDelivery = none ∧ d.entriesAtDelivery = none)) ∧
    (∀ key,
      CacheInv (Registry.remove r key) ∧
      (Registry.remove r key).core.elements = none ∧
      (Registry.remove r key).core.entries = none ∧
      ∃ d, (Registry.remove r key).core.log = r.core.log ++ [d] ∧
        d.elementsAtDelivery = none ∧ d.entriesAtDelivery = none) ∧
    CacheInv (Registry.getAll r).2 ∧
    CacheInv (Registry.getEntries r).2 ∧
    (∀ sub, CacheInv (Registry.category r sub).2) ∧
    (∀ validate schema, CacheInv (Registry.addValidation validate r schema).2) := by
  refine ⟨?_, ?_, ?_, ?_, ?_, ?_⟩
  · intro key value force s
    by_cases hg : (!force && contentHas r.core.content key) = true
    · rw [add_of_guard_true r key value force s hg]
      exact ⟨hInv, fun hok => absurd hok (by simp)⟩
    · have hg2 : (!force && contentHas r.core.content key) = false := by simpa using hg
      rw [add_snd_of_guard_false r key value force s hg2]
      refine ⟨⟨Or.inl rfl, Or.inl rfl⟩, fun _ => ⟨rfl, rfl, ?_⟩⟩
      refine ⟨{ payload := { operation := "add", key := key, value := value }, elementsAtDelivery := none, entriesAtDelivery := none }, ?_, rfl, rfl⟩
      rw [trigger_log]
      rfl
  · intro key
    rw [remove_eq]
    refine ⟨⟨Or.inl rfl, Or.inl rfl⟩, rfl, rfl,
      ⟨{ payload := { operation := "delete", key := key, value := match contentGet r.core.content key with | some e => JsVal.arr [seqJs e.1, e.2] | none => JsVal.undef }, elementsAtDelivery := none, entriesAtDelivery := none }, ?_, rfl, rfl⟩⟩
    rw [trigger_log]
    rfl
  · rcases hInv.1 with h | h
    · unfold Registry.getAll
      rw [h]
      exact ⟨Or.inr rfl, hInv.2⟩
    · unfold Registry.getAll
      rw [h]
      exact hInv
  · rcases hInv.2 with h | h
    · unfold Registry.getEntries
      rw [h]
      exact ⟨hInv.1, Or.inr rfl⟩
    · unfold Registry.getEntries
      rw [h]
      exact hInv
  · intro sub
    unfold Registry.category
    cases h : (r.core.subRegistries.find? (fun e => e.1 == sub)).map (fun e => e.2) with
    | some c => exact hInv
    | none => exact hInv
  · intro validate schema
    by_cases ht : truthy r.core.validationSchema = true
    · rw [addValidation_of_truthy validate r schema ht]
      exact hInv
    · have ht2 : truthy r.core.validationSchema = false := by simpa using ht
      rw [addValidation_of_falsy validate r schema ht2]
      have hE : (RegState.mk { r.core with validationSchema := schema }).core.entries =
        r.core.entries := rfl
      unfold Registry.getEntries
      rw [hE]
      cases h : r.core.entries with
      | some es => exact hInv
      | none => exact ⟨hInv.1, Or.inr rfl⟩

/-- Witness for C9 at the fresh registry (both caches null, hence the
invariant holds) and two of its operations. -/
theorem c9_cache_invariant_witness :
    CacheInv (Registry.remove (freshRegistry "root") "k") ∧
    CacheInv (Registry.getAll (freshRegistry "root")).2 :=
  ⟨((c9_cache_invariant (freshRegistry "root") ⟨Or.inl rfl, Or.inl rfl⟩).2.1 "k").1,
   (c9_cache_invariant (freshRegistry "root") ⟨Or.inl rfl, Or.inl rfl⟩).2.2.1⟩

theorem validateAll_single_error (validate : JsVal → JsVal → Except String Unit)
    (name k : String) (val schema : JsVal) (em : String)
    (hval : validate val schema = Except.error em) :
    validateAll validate name schema [(k, val)] =
      Except.error (RegError.jsError
        ("Validation error for key \"" ++ k ++ "\" in registry \"" ++ name ++
          "\": " ++ em)) := by
  unfold validateAll validateSchema
  rw [hval]

/-- Claim C10: `category(s)` on a parent with no child named s creates the
child as `new Registry()` — default name "root", every field at its
constructor default, no parent reference (the class has no parent field) —
stores it under s, and returns the stored child unchanged on a second
call; consequently a schema-validation failure inside the child reports
`registry "root"` in its message, not s. -/
theorem c10_category_default_name (r : RegState) (sub : String)
    (hfresh : r.core.subRegistries.find? (fun e => e.1 == sub) = none) :
    (Registry.category r sub).1 = freshRegistry "root" ∧
    (Registry.category r sub).1.core.name = "root" ∧
    (Registry.category r sub).2.core.subRegistries =
      r.core.subRegistries ++ [(sub, freshRegistry "root")] ∧
    Registry.category (Registry.category r sub).2 sub =
      ((Registry.category r sub).1, (Registry.category r sub).2) ∧
    (∀ validate k val schema em, validate val schema = Except.error em →
      (Registry.addValidation validate
        (Registry.add (Registry.category r sub).1 k val false (some 50)).2 schema).1 =
        Except.error (RegError.jsError
          ("Validation error for key \"" ++ k ++ "\" in registry \"" ++ "root" ++ "\": " ++ em))) := by
  have hcat : Registry.category r sub =
      (freshRegistry "root",
       RegState.mk { r.core with subRegistries :=
         r.core.subRegistries ++ [(sub, freshRegistry "root")] }) := by
    unfold Registry.category
    rw [hfresh]
    rfl
  refine ⟨?_, ?_, ?_, ?_, ?_⟩
  · rw [hcat]
  · rw [hcat]
    rfl
  · rw [hcat]
    rfl
  · rw [hcat]
    unfold Registry.category
    have hsr : (RegState.mk { r.core with subRegistries :=
        r.core.subRegistries ++ [(sub, freshRegistry "root")] }).core.subRegistries =
        r.core.subRegistries ++ [(sub, freshRegistry "root")] := rfl
    rw [hsr, find?_append_of_none _ _ _ hfresh]
    simp only [List.find?_cons, beq_self_eq_true]
    rfl
  · intro validate k val schema em hval
    rw [hcat]
    have hx : (Registry.addValidation validate
        (Registry.add (freshRegistry "root") k val false (some 50)).2 schema).1 =
        validateAll validate "root" schema [(k, val)] := rfl
    rw [hx]
    exact validateAll_single_error validate "root" k val schema em hval

/-- Witness for C10 on a fresh parent and the subcategory name "tools". -/
theorem c10_category_default_name_witness :
    (Registry.category (freshRegistry "parent") "tools").1.core.name = "root" ∧
    Registry.category (Registry.category (freshRegistry "parent") "tools").2 "tools" =
      ((Registry.category (freshRegistry "parent") "tools").1,
       (Registry.category (freshRegistry "parent") "tools").2) :=
  ⟨(c10_category_default_name (freshRegistry "parent") "tools" rfl).2.1,
   (c10_category_default_name (freshRegistry "parent") "tools" rfl).2.2.2.1⟩
